import Mathlib

/-!
Shallow embedding of `crates/blockifier/src/execution/common_hints.rs`.

The file models the Cairo-VM hint extensions of the blockifier crate: the
address-classifier hints (`normalize_address_set_is_small`,
`normalize_address_set_is_250`), the wide-integer abstraction `Uint256`, and
the 256-bit unsigned divider hint (`uint256_offseted_unsigned_div_rem`, exposed
as the `alon` hint).

Field elements are modelled as natural numbers (a `Felt252` holds its canonical
representative, an integer below `PRIME`); VM memory is an association list of
write-once cells keyed by relocatable addresses; hint functions return the
final memory together with an `Except` result, mirroring the in-place mutation
of the Rust `VirtualMachine` and the `Result<(), HintError>` return type.  The
divider additionally returns the sequence of memory access events it performed,
in program order, so that ordering properties of its reads and writes can be
stated.
-/

namespace BlockifierHints

/-- The STARK field prime, `PRIME_STR = 0x800000000000011...1`:
`2^251 + 17·2^192 + 1`. -/
def PRIME : Nat := 2 ^ 251 + 17 * 2 ^ 192 + 1

/-- A relocatable VM address: a (segment, offset) pair. -/
structure Addr where
  segment : Nat
  offset : Nat
  deriving DecidableEq, Repr

/-- Offset addition on addresses (`Relocatable + usize`). -/
def Addr.add (a : Addr) (k : Nat) : Addr :=
  ⟨a.segment, a.offset + k⟩

/-- VM memory: write-once cells holding field elements, modelled as an
association list with the most recent write first. -/
abbrev Mem := List (Addr × Nat)

/-- Read a memory cell. -/
def memGet : Mem → Addr → Option Nat
  | [], _ => none
  | (b, v) :: rest, a => if b = a then some v else memGet rest a

/-- Hint errors: the `cairo_vm` `HintError` variants this file can produce.
The `arithmeticFault` constructor stands for the fatal divide-by-zero panic of
`num_integer::div_rem`; `unknownMemoryCell` stands for the wrapped VM memory
error of a failed `vm.get_integer`. -/
inductive HintError where
  | missingConstant (name : String)
  | unknownIdentifier (name : String)
  | identifierHasNoMember (name member : String)
  | unknownMemoryCell (a : Addr)
  | assertionFailed (addrBound : Nat)
  | memoryInconsistent (a : Addr)
  | arithmeticFault
  deriving DecidableEq, Repr

/-- `vm.get_integer`: read a cell, failing on an unknown cell. -/
def getInteger (mem : Mem) (a : Addr) : Except HintError Nat :=
  match memGet mem a with
  | some v => .ok v
  | none => .error (.unknownMemoryCell a)

/-- `vm.insert_value`: write-once semantics — writing a different value into an
occupied cell fails and leaves memory unchanged; rewriting the same value is a
no-op. -/
def insertValue (mem : Mem) (a : Addr) (v : Nat) : Except HintError Mem :=
  match memGet mem a with
  | some w => if w = v then .ok mem else .error (.memoryInconsistent a)
  | none => .ok ((a, v) :: mem)

/-- The per-frame variable table, already resolved: variable name → base
address (the address `get_relocatable_from_var_name` computes from `ids_data`
and `ap_tracking`). -/
abbrev Ids := List (String × Addr)

/-- Look a variable name up in the table. -/
def idsGet : Ids → String → Option Addr
  | [], _ => none
  | (n, a) :: rest, s => if n = s then some a else idsGet rest s

/-- `hint_utils::get_relocatable_from_var_name`. -/
def getRelocatableFromVarName (name : String) (ids : Ids) : Except HintError Addr :=
  match idsGet ids name with
  | some a => .ok a
  | none => .error (.unknownIdentifier name)

/-- `hint_utils::get_integer_from_var_name`. -/
def getIntegerFromVarName (name : String) (mem : Mem) (ids : Ids) :
    Except HintError Nat :=
  match getRelocatableFromVarName name ids with
  | .error e => .error e
  | .ok a => getInteger mem a

/-- `hint_utils::insert_value_from_var_name`. -/
def insertValueFromVarName (name : String) (v : Nat) (mem : Mem) (ids : Ids) :
    Except HintError Mem :=
  match getRelocatableFromVarName name ids with
  | .error e => .error e
  | .ok a => insertValue mem a v

/-- The named constants table (fully-qualified constant name → field
element). -/
abbrev Consts := List (String × Nat)

/-- Look a constant name up in the table. -/
def constsGet : Consts → String → Option Nat
  | [], _ => none
  | (n, v) :: rest, s => if n = s then some v else constsGet rest s

/-- The fully-qualified name of the `ADDR_BOUND` constant (line 40). -/
def ADDR_BOUND : String := "starkware.starknet.common.storage.ADDR_BOUND"

/-- `normalize_address_set_is_small` (lines 33–60).  Returns the final memory
together with the hint result.  The parse of `PRIME_STR` always succeeds and
yields `PRIME`, so it is inlined. -/
def normalize_address_set_is_small (mem : Mem) (ids : Ids) (constants : Consts) :
    Mem × Except HintError Unit :=
  match constsGet constants ADDR_BOUND with
  | none => (mem, .error (.missingConstant "ADDR_BOUND"))
  | some addr_bound =>
    match getIntegerFromVarName "addr" mem ids with
    | .error e => (mem, .error e)
    | .ok addr =>
      if ¬ (2 ^ 250 < addr_bound ∧ addr_bound ≤ 2 ^ 251
          ∧ 2 * 2 ^ 250 < PRIME ∧ PRIME < 2 * addr_bound) then
        (mem, .error (.assertionFailed addr_bound))
      else
        let is_small : Nat := if addr < addr_bound then 1 else 0
        match insertValueFromVarName "is_small" is_small mem ids with
        | .error e => (mem, .error e)
        | .ok mem2 => (mem2, .ok ())

/-- `normalize_address_set_is_250` (lines 63–75).  The threshold
`Felt252::one() << 250` is the field element `(1 <<< 250) % PRIME`. -/
def normalize_address_set_is_250 (mem : Mem) (ids : Ids) (_constants : Consts) :
    Mem × Except HintError Unit :=
  match getIntegerFromVarName "addr" mem ids with
  | .error e => (mem, .error e)
  | .ok addr =>
    let is_250 : Nat := if addr < (1 <<< 250) % PRIME then 1 else 0
    match insertValueFromVarName "is_250" is_250 mem ids with
    | .error e => (mem, .error e)
    | .ok mem2 => (mem2, .ok ())

/-- The wide-integer abstraction: an unsigned 256-bit integer as a (low, high)
pair of field elements (lines 106–109). -/
structure Uint256 where
  low : Nat
  high : Nat
  deriving DecidableEq, Repr

/-- `Uint256::from_values` (lines 137–141). -/
def Uint256.from_values (low high : Nat) : Uint256 := ⟨low, high⟩

/-- `Uint256::split` (lines 158–163): `low = num & u128::MAX`,
`high = num >> 128`, both reduced into the field by `Felt252::from`. -/
def Uint256.split (num : Nat) : Uint256 :=
  let mask_low : Nat := 2 ^ 128 - 1
  Uint256.from_values ((num &&& mask_low) % PRIME) ((num >>> 128) % PRIME)

/-- A memory access event of a hint invocation. -/
inductive Event where
  | read (a : Addr)
  | write (a : Addr)
  deriving DecidableEq, Repr

/-- Whether an event is a read. -/
def Event.isRead : Event → Bool
  | .read _ => true
  | .write _ => false

/-- Whether an event is a write. -/
def Event.isWrite : Event → Bool
  | .read _ => false
  | .write _ => true

/-- `Uint256::insert_from_var_name` (lines 143–156): resolve the variable to a
base address, write `low` at offset 0, then `high` at offset 1.  The VM is
mutated in place, so when the second write fails the first stays in memory;
the returned event list records the writes that landed, in order. -/
def Uint256.insert_from_var_name (u : Uint256) (var_name : String) (mem : Mem)
    (ids : Ids) : Mem × List Event × Except HintError Unit :=
  match getRelocatableFromVarName var_name ids with
  | .error e => (mem, [], .error e)
  | .ok addr =>
    match insertValue mem addr u.low with
    | .error e => (mem, [], .error e)
    | .ok mem1 =>
      match insertValue mem1 (addr.add 1) u.high with
      | .error e => (mem1, [.write addr], .error e)
      | .ok mem2 => (mem2, [.write addr, .write (addr.add 1)], .ok ())

/-- `num_integer::div_rem` on `BigUint` (line 211): quotient and remainder of
Euclidean division; the divide-by-zero panic surfaces as the fatal
`arithmeticFault`. -/
def div_rem (a d : Nat) : Except HintError (Nat × Nat) :=
  if d = 0 then .error .arithmeticFault else .ok (a / d, a % d)

/-- `uint256_offseted_unsigned_div_rem` (lines 181–220).  The two reads of
`Uint256::from_var_name("a", ..)` (lines 112–135) are inlined so the event
trace can record their addresses; otherwise the control flow follows the
source line by line.  Returns the final memory, the memory access events in
program order (reads and writes that succeeded), and the hint result. -/
def uint256_offseted_unsigned_div_rem (mem : Mem) (ids : Ids)
    (div_offset_low div_offset_high : Nat) :
    Mem × List Event × Except HintError Unit :=
  match getRelocatableFromVarName "a" ids with
  | .error e => (mem, [], .error e)
  | .ok a_addr =>
    match memGet mem a_addr with
    | none => (mem, [], .error (.identifierHasNoMember "a" "low"))
    | some a_low =>
      match memGet mem (a_addr.add 1) with
      | none => (mem, [.read a_addr], .error (.identifierHasNoMember "a" "high"))
      | some a_high =>
        match getRelocatableFromVarName "div" ids with
        | .error e => (mem, [.read a_addr, .read (a_addr.add 1)], .error e)
        | .ok div_addr =>
          match getInteger mem (div_addr.add div_offset_low) with
          | .error e => (mem, [.read a_addr, .read (a_addr.add 1)], .error e)
          | .ok div_low =>
            match getInteger mem (div_addr.add div_offset_high) with
            | .error e =>
              (mem, [.read a_addr, .read (a_addr.add 1),
                .read (div_addr.add div_offset_low)], .error e)
            | .ok div_high =>
              let reads : List Event :=
                [.read a_addr, .read (a_addr.add 1),
                 .read (div_addr.add div_offset_low),
                 .read (div_addr.add div_offset_high)]
              let a := (a_high <<< 128) + a_low
              let div := (div_high <<< 128) + div_low
              match div_rem a div with
              | .error e => (mem, reads, .error e)
              | .ok (quotient, remainder) =>
                match (Uint256.split quotient).insert_from_var_name
                    "quotient" mem ids with
                | (mem1, t1, .error e) => (mem1, reads ++ t1, .error e)
                | (mem1, t1, .ok _) =>
                  match (Uint256.split remainder).insert_from_var_name
                      "remainder" mem1 ids with
                  | (mem2, t2, .error e) => (mem2, reads ++ t1 ++ t2, .error e)
                  | (mem2, t2, .ok _) => (mem2, reads ++ t1 ++ t2, .ok ())

/-- The `alon` hint (lines 96–104): the divider with the divisor read at the
default offsets (0, 1). -/
def alon (mem : Mem) (ids : Ids) (_constants : Consts) :
    Mem × List Event × Except HintError Unit :=
  uint256_offseted_unsigned_div_rem mem ids 0 1

/-! Basic lemmas about the memory model. -/

theorem memGet_cons_self (a : Addr) (v : Nat) (m : Mem) :
    memGet ((a, v) :: m) a = some v := by
  simp [memGet]

theorem memGet_cons_ne {b a : Addr} (h : b ≠ a) (v : Nat) (m : Mem) :
    memGet ((b, v) :: m) a = memGet m a := by
  simp [memGet, h]

theorem insertValue_of_none {mem : Mem} {a : Addr} (h : memGet mem a = none)
    (v : Nat) : insertValue mem a v = .ok ((a, v) :: mem) := by
  simp [insertValue, h]

theorem Addr.add_one_ne (a : Addr) : a.add 1 ≠ a := by
  cases a with
  | mk s o => simp [Addr.add]

theorem Addr.ne_add_one (a : Addr) : a ≠ a.add 1 :=
  (Addr.add_one_ne a).symm

/-- `Uint256.split` written with mod and division. -/
theorem Uint256.split_def (num : Nat) :
    Uint256.split num = ⟨num % 2 ^ 128 % PRIME, num / 2 ^ 128 % PRIME⟩ := by
  show Uint256.from_values ((num &&& (2 ^ 128 - 1)) % PRIME) ((num >>> 128) % PRIME) = _
  unfold Uint256.from_values
  rw [Nat.and_pow_two_sub_one_eq_mod, Nat.shiftRight_eq_div_pow]

/-- For a value below `2^256`, the split limbs are exactly the base-`2^128`
digits: the field reduction does nothing. -/
theorem Uint256.split_of_lt {num : Nat} (h : num < 2 ^ 256) :
    Uint256.split num = ⟨num % 2 ^ 128, num / 2 ^ 128⟩ := by
  rw [Uint256.split_def]
  have h1 : num % 2 ^ 128 < PRIME :=
    lt_trans (Nat.mod_lt _ (by norm_num)) (by norm_num [PRIME])
  have h2 : num / 2 ^ 128 < 2 ^ 128 := by
    apply Nat.div_lt_of_lt_mul
    calc num < 2 ^ 256 := h
    _ = 2 ^ 128 * 2 ^ 128 := by norm_num
  have h3 : num / 2 ^ 128 < PRIME := lt_trans h2 (by norm_num [PRIME])
  rw [Nat.mod_eq_of_lt h1, Nat.mod_eq_of_lt h3]

/-- The success path of the divider hint, fully computed: with both operands
readable, a non-zero merged divisor and four fresh, pairwise distinct output
cells, the hint writes the split quotient at `quotient` (offsets 0, 1) and the
split remainder at `remainder` (offsets 0, 1), performing its four reads
before its four writes. -/
theorem uint256_div_rem_run
    (mem : Mem) (ids : Ids) (dlo dhi : Nat)
    (a_addr div_addr q_addr r_addr : Addr)
    (a_low a_high div_low div_high : Nat)
    (ha : idsGet ids "a" = some a_addr)
    (hdiv : idsGet ids "div" = some div_addr)
    (hq : idsGet ids "quotient" = some q_addr)
    (hr : idsGet ids "remainder" = some r_addr)
    (hal : memGet mem a_addr = some a_low)
    (hah : memGet mem (a_addr.add 1) = some a_high)
    (hdl : memGet mem (div_addr.add dlo) = some div_low)
    (hdh : memGet mem (div_addr.add dhi) = some div_high)
    (hd0 : ¬ ((div_high <<< 128) + div_low = 0))
    (hql : memGet mem q_addr = none)
    (hqh : memGet mem (q_addr.add 1) = none)
    (hrl : memGet mem r_addr = none)
    (hrh : memGet mem (r_addr.add 1) = none)
    (hqr : ¬ (q_addr = r_addr))
    (hqr1 : ¬ (q_addr = r_addr.add 1))
    (hq1r : ¬ (q_addr.add 1 = r_addr))
    (hq1r1 : ¬ (q_addr.add 1 = r_addr.add 1)) :
    uint256_offseted_unsigned_div_rem mem ids dlo dhi =
      ((r_addr.add 1,
          (Uint256.split (((a_high <<< 128) + a_low) % ((div_high <<< 128) + div_low))).high) ::
        (r_addr,
          (Uint256.split (((a_high <<< 128) + a_low) % ((div_high <<< 128) + div_low))).low) ::
        (q_addr.add 1,
          (Uint256.split (((a_high <<< 128) + a_low) / ((div_high <<< 128) + div_low))).high) ::
        (q_addr,
          (Uint256.split (((a_high <<< 128) + a_low) / ((div_high <<< 128) + div_low))).low) ::
        mem,
       [Event.read a_addr, Event.read (a_addr.add 1),
        Event.read (div_addr.add dlo), Event.read (div_addr.add dhi),
        Event.write q_addr, Event.write (q_addr.add 1),
        Event.write r_addr, Event.write (r_addr.add 1)],
       Except.ok ()) := by
  have hne_q : ¬ (q_addr = q_addr.add 1) := Addr.ne_add_one q_addr
  have hne_r : ¬ (r_addr = r_addr.add 1) := Addr.ne_add_one r_addr
  unfold uint256_offseted_unsigned_div_rem
  simp only [getRelocatableFromVarName, getInteger, ha, hdiv, hq, hr, hal, hah,
    hdl, hdh, div_rem, if_neg hd0, Uint256.insert_from_var_name, insertValue,
    memGet, hql, hqh, hrl, hrh, if_neg hne_q, if_neg hne_r, if_neg hqr,
    if_neg hqr1, if_neg hq1r, if_neg hq1r1, List.cons_append, List.nil_append]

/-- Merging two 128-bit limbs stays below `2^256`. -/
theorem merge_limbs_lt {lo hi : Nat} (hl : lo < 2 ^ 128) (hh : hi < 2 ^ 128) :
    hi * 2 ^ 128 + lo < 2 ^ 256 := by
  calc hi * 2 ^ 128 + lo < hi * 2 ^ 128 + 2 ^ 128 := Nat.add_lt_add_left hl _
  _ = (hi + 1) * 2 ^ 128 := by ring
  _ ≤ 2 ^ 128 * 2 ^ 128 := Nat.mul_le_mul_right _ (Nat.succ_le_of_lt hh)
  _ = 2 ^ 256 := by norm_num

/-- Splitting a value below `2^256` yields 128-bit limbs that recompose to the
value. -/
theorem Uint256.split_recompose {num : Nat} (h : num < 2 ^ 256) :
    (Uint256.split num).high * 2 ^ 128 + (Uint256.split num).low = num ∧
    (Uint256.split num).low < 2 ^ 128 ∧ (Uint256.split num).high < 2 ^ 128 := by
  rw [Uint256.split_of_lt h]
  refine ⟨?_, Nat.mod_lt _ (by norm_num), ?_⟩
  · rw [Nat.mul_comm]
    exact Nat.div_add_mod num (2 ^ 128)
  · exact Nat.div_lt_of_lt_mul (by calc num < 2 ^ 256 := h
      _ = 2 ^ 128 * 2 ^ 128 := by norm_num)

/-- C1: for every pair of 256-bit unsigned integers `a` (limbs at variable
`a`, offsets 0 and 1) and `d ≠ 0` (limbs at variable `div`, offsets
`div_offset_low` and `div_offset_high`), the divider hint succeeds and writes
to `quotient` and `remainder` the low/high split of `divmod(a, d)`: the
recomposed written limbs are a pair `(q, r)` with `q·d + r = a` and
`r < d`. -/
theorem uint256_div_rem_writes_divmod
    (mem : Mem) (ids : Ids) (dlo dhi : Nat)
    (a_addr div_addr q_addr r_addr : Addr)
    (a_low a_high div_low div_high : Nat)
    (ha : idsGet ids "a" = some a_addr)
    (hdiv : idsGet ids "div" = some div_addr)
    (hq : idsGet ids "quotient" = some q_addr)
    (hr : idsGet ids "remainder" = some r_addr)
    (hal : memGet mem a_addr = some a_low)
    (hah : memGet mem (a_addr.add 1) = some a_high)
    (hdl : memGet mem (div_addr.add dlo) = some div_low)
    (hdh : memGet mem (div_addr.add dhi) = some div_high)
    (hbl : a_low < 2 ^ 128) (hbh : a_high < 2 ^ 128)
    (hdbl : div_low < 2 ^ 128) (hdbh : div_high < 2 ^ 128)
    (hd0 : ¬ (div_high * 2 ^ 128 + div_low = 0))
    (hql : memGet mem q_addr = none)
    (hqh : memGet mem (q_addr.add 1) = none)
    (hrl : memGet mem r_addr = none)
    (hrh : memGet mem (r_addr.add 1) = none)
    (hqr : ¬ (q_addr = r_addr))
    (hqr1 : ¬ (q_addr = r_addr.add 1))
    (hq1r : ¬ (q_addr.add 1 = r_addr))
    (hq1r1 : ¬ (q_addr.add 1 = r_addr.add 1)) :
    ∃ mem' trace qlo qhi rlo rhi,
      uint256_offseted_unsigned_div_rem mem ids dlo dhi =
        (mem', trace, Except.ok ()) ∧
      memGet mem' q_addr = some qlo ∧
      memGet mem' (q_addr.add 1) = some qhi ∧
      memGet mem' r_addr = some rlo ∧
      memGet mem' (r_addr.add 1) = some rhi ∧
      (qhi * 2 ^ 128 + qlo) * (div_high * 2 ^ 128 + div_low)
          + (rhi * 2 ^ 128 + rlo)
        = a_high * 2 ^ 128 + a_low ∧
      rhi * 2 ^ 128 + rlo < div_high * 2 ^ 128 + div_low := by
  have hD0 : 0 < div_high * 2 ^ 128 + div_low := Nat.pos_of_ne_zero hd0
  have h256A : a_high * 2 ^ 128 + a_low < 2 ^ 256 := merge_limbs_lt hbl hbh
  have h256D : div_high * 2 ^ 128 + div_low < 2 ^ 256 := merge_limbs_lt hdbl hdbh
  have hq256 :
      (a_high * 2 ^ 128 + a_low) / (div_high * 2 ^ 128 + div_low) < 2 ^ 256 :=
    lt_of_le_of_lt (Nat.div_le_self _ _) h256A
  have hr256 :
      (a_high * 2 ^ 128 + a_low) % (div_high * 2 ^ 128 + div_low) < 2 ^ 256 :=
    lt_trans (Nat.mod_lt _ hD0) h256D
  obtain ⟨hqrec, _, _⟩ := Uint256.split_recompose hq256
  obtain ⟨hrrec, _, _⟩ := Uint256.split_recompose hr256
  have hrun := uint256_div_rem_run mem ids dlo dhi a_addr div_addr q_addr r_addr
    a_low a_high div_low div_high ha hdiv hq hr hal hah hdl hdh
    (by rw [Nat.shiftLeft_eq]; exact hd0) hql hqh hrl hrh hqr hqr1 hq1r hq1r1
  simp only [Nat.shiftLeft_eq] at hrun
  refine ⟨_, _,
    (Uint256.split ((a_high * 2 ^ 128 + a_low) / (div_high * 2 ^ 128 + div_low))).low,
    (Uint256.split ((a_high * 2 ^ 128 + a_low) / (div_high * 2 ^ 128 + div_low))).high,
    (Uint256.split ((a_high * 2 ^ 128 + a_low) % (div_high * 2 ^ 128 + div_low))).low,
    (Uint256.split ((a_high * 2 ^ 128 + a_low) % (div_high * 2 ^ 128 + div_low))).high,
    hrun, ?_, ?_, ?_, ?_, ?_, ?_⟩
  · rw [memGet_cons_ne (Ne.symm hqr1), memGet_cons_ne (Ne.symm hqr),
      memGet_cons_ne (Addr.add_one_ne q_addr), memGet_cons_self]
  · rw [memGet_cons_ne (Ne.symm hq1r1), memGet_cons_ne (Ne.symm hq1r),
      memGet_cons_self]
  · rw [memGet_cons_ne (Addr.add_one_ne r_addr), memGet_cons_self]
  · rw [memGet_cons_self]
  · rw [hqrec, hrrec, Nat.div_add_mod']
  · rw [hrrec]
    exact Nat.mod_lt _ hD0

/-- Concrete memory for the divider examples: `a = (5, 0)` at offsets 0–1,
`div = (2, 0)` at offsets 2–3. -/
def memA : Mem :=
  [(Addr.mk 0 0, 5), (Addr.mk 0 1, 0), (Addr.mk 0 2, 2), (Addr.mk 0 3, 0)]

/-- Concrete variable table for the divider examples. -/
def idsA : Ids :=
  [("a", Addr.mk 0 0), ("div", Addr.mk 0 2),
   ("quotient", Addr.mk 0 4), ("remainder", Addr.mk 0 6)]

/-- Witness for C1: dividing `a = 5` by `div = 2` (the spec's end-to-end
example). -/
theorem uint256_div_rem_writes_divmod_witness :
    ∃ mem' trace qlo qhi rlo rhi,
      uint256_offseted_unsigned_div_rem memA idsA 0 1 =
        (mem', trace, Except.ok ()) ∧
      memGet mem' (Addr.mk 0 4) = some qlo ∧
      memGet mem' ((Addr.mk 0 4).add 1) = some qhi ∧
      memGet mem' (Addr.mk 0 6) = some rlo ∧
      memGet mem' ((Addr.mk 0 6).add 1) = some rhi ∧
      (qhi * 2 ^ 128 + qlo) * (0 * 2 ^ 128 + 2) + (rhi * 2 ^ 128 + rlo)
        = 0 * 2 ^ 128 + 5 ∧
      rhi * 2 ^ 128 + rlo < 0 * 2 ^ 128 + 2 :=
  uint256_div_rem_writes_divmod memA idsA 0 1
    (Addr.mk 0 0) (Addr.mk 0 2) (Addr.mk 0 4) (Addr.mk 0 6) 5 0 2 0
    rfl rfl rfl rfl rfl rfl rfl rfl
    (by decide) (by decide) (by decide) (by decide) (by decide)
    rfl rfl rfl rfl (by decide) (by decide) (by decide) (by decide)

/-- C2: splitting the merged value `high·2^128 + low` of two 128-bit-bounded
limbs returns exactly `(low, high)`: `split` is a left inverse of merge, with
`low = value mod 2^128` and `high = value ÷ 2^128`. -/
theorem split_merge_roundtrip (low high : Nat)
    (hl : low < 2 ^ 128) (hh : high < 2 ^ 128) :
    Uint256.split (high * 2 ^ 128 + low) = ⟨low, high⟩ ∧
    (high * 2 ^ 128 + low) % 2 ^ 128 = low ∧
    (high * 2 ^ 128 + low) / 2 ^ 128 = high := by
  have hmod : (high * 2 ^ 128 + low) % 2 ^ 128 = low := by
    rw [Nat.mul_comm, Nat.mul_add_mod]
    exact Nat.mod_eq_of_lt hl
  have hdiv : (high * 2 ^ 128 + low) / 2 ^ 128 = high := by
    rw [Nat.add_comm,
      Nat.add_mul_div_right low high (by norm_num : 0 < 2 ^ 128),
      Nat.div_eq_of_lt hl, Nat.zero_add]
  refine ⟨?_, hmod, hdiv⟩
  rw [Uint256.split_of_lt (merge_limbs_lt hl hh), hmod, hdiv]

/-- Witness for C2 at `low = 3`, `high = 7`. -/
theorem split_merge_roundtrip_witness :
    Uint256.split (7 * 2 ^ 128 + 3) = ⟨3, 7⟩ ∧
    (7 * 2 ^ 128 + 3) % 2 ^ 128 = 3 ∧
    (7 * 2 ^ 128 + 3) / 2 ^ 128 = 7 :=
  split_merge_roundtrip 3 7 (by decide) (by decide)

/-- C3: `normalize_address_set_is_250` is independent of the constants table
and writes `is_250 = 1` exactly when `addr < 2^250`, else `0`. -/
theorem set_is_250_writes_flag (mem : Mem) (ids : Ids) (c1 c2 : Consts)
    (addr_a flag_a : Addr) (addr : Nat)
    (ha : idsGet ids "addr" = some addr_a)
    (hv : memGet mem addr_a = some addr)
    (hf : idsGet ids "is_250" = some flag_a)
    (hflag : memGet mem flag_a = none) :
    normalize_address_set_is_250 mem ids c1 =
      normalize_address_set_is_250 mem ids c2 ∧
    normalize_address_set_is_250 mem ids c1 =
      ((flag_a, if addr < 2 ^ 250 then 1 else 0) :: mem, Except.ok ()) := by
  refine ⟨rfl, ?_⟩
  have hth : (1 <<< 250) % PRIME = 2 ^ 250 := by
    rw [Nat.shiftLeft_eq, Nat.one_mul]
    exact Nat.mod_eq_of_lt (by norm_num [PRIME])
  unfold normalize_address_set_is_250
  simp only [getIntegerFromVarName, getRelocatableFromVarName, getInteger,
    ha, hv, hth, insertValueFromVarName, hf, insertValue, hflag]

/-- Concrete state for the `is_250` example: `addr = 2^250 - 1`. -/
def memB : Mem := [(Addr.mk 0 0, 2 ^ 250 - 1)]

/-- Variable table for the `is_250` example. -/
def idsB : Ids := [("addr", Addr.mk 0 0), ("is_250", Addr.mk 0 1)]

/-- Witness for C3 at `addr = 2^250 - 1`, comparing an empty constants table
with a non-empty one. -/
theorem set_is_250_writes_flag_witness :
    normalize_address_set_is_250 memB idsB [] =
      normalize_address_set_is_250 memB idsB [(ADDR_BOUND, 7)] ∧
    normalize_address_set_is_250 memB idsB [] =
      ((Addr.mk 0 1, if 2 ^ 250 - 1 < 2 ^ 250 then 1 else 0) :: memB,
        Except.ok ()) :=
  set_is_250_writes_flag memB idsB [] [(ADDR_BOUND, 7)]
    (Addr.mk 0 0) (Addr.mk 0 1) (2 ^ 250 - 1) rfl rfl rfl rfl

/-- C4: when the four constant relationships fail, the `is_small` hint returns
`AssertionFailed` carrying the offending bound and leaves memory untouched,
whatever the value of `addr`. -/
theorem set_is_small_guard_fails (mem : Mem) (ids : Ids) (constants : Consts)
    (b : Nat) (addr_a : Addr) (addr : Nat)
    (hb : constsGet constants ADDR_BOUND = some b)
    (ha : idsGet ids "addr" = some addr_a)
    (hv : memGet mem addr_a = some addr)
    (hguard : ¬ (2 ^ 250 < b ∧ b ≤ 2 ^ 251
        ∧ 2 * 2 ^ 250 < PRIME ∧ PRIME < 2 * b)) :
    normalize_address_set_is_small mem ids constants =
      (mem, Except.error (HintError.assertionFailed b)) := by
  unfold normalize_address_set_is_small
  simp only [hb, getIntegerFromVarName, getRelocatableFromVarName, getInteger,
    ha, hv, if_pos hguard]

/-- Concrete state for the `is_small` examples. -/
def memC : Mem := [(Addr.mk 0 0, 0)]

/-- Variable table for the `is_small` examples. -/
def idsC : Ids := [("addr", Addr.mk 0 0), ("is_small", Addr.mk 0 1)]

/-- Witness for C4 at `ADDR_BOUND = 2^251 + 1`, which violates
`ADDR_BOUND ≤ 2^251`. -/
theorem set_is_small_guard_fails_witness :
    normalize_address_set_is_small memC idsC [(ADDR_BOUND, 2 ^ 251 + 1)] =
      (memC, Except.error (HintError.assertionFailed (2 ^ 251 + 1))) :=
  set_is_small_guard_fails memC idsC [(ADDR_BOUND, 2 ^ 251 + 1)]
    (2 ^ 251 + 1) (Addr.mk 0 0) 0 rfl rfl rfl (by decide)

/-- C5 (amended): when the four constant relationships do hold, the `is_small`
hint writes `is_small = 1` exactly when `addr < ADDR_BOUND`, else `0`. -/
theorem set_is_small_classifies (mem : Mem) (ids : Ids) (constants : Consts)
    (b : Nat) (addr_a flag_a : Addr) (addr : Nat)
    (hb : constsGet constants ADDR_BOUND = some b)
    (ha : idsGet ids "addr" = some addr_a)
    (hv : memGet mem addr_a = some addr)
    (hguard : 2 ^ 250 < b ∧ b ≤ 2 ^ 251 ∧ 2 * 2 ^ 250 < PRIME ∧ PRIME < 2 * b)
    (hf : idsGet ids "is_small" = some flag_a)
    (hflag : memGet mem flag_a = none) :
    normalize_address_set_is_small mem ids constants =
      ((flag_a, if addr < b then 1 else 0) :: mem, Except.ok ()) := by
  unfold normalize_address_set_is_small
  simp only [hb, getIntegerFromVarName, getRelocatableFromVarName, getInteger,
    ha, hv, if_neg (not_not_intro hguard), insertValueFromVarName, hf,
    insertValue, hflag]

/-- Concrete state with `addr = 2^250` for the `is_small` examples. -/
def memD : Mem := [(Addr.mk 0 0, 2 ^ 250)]

/-- Witness for C5 at the valid bound `ADDR_BOUND = 2^251` and
`addr = 2^250`, where the flag is 1. -/
theorem set_is_small_classifies_witness :
    normalize_address_set_is_small memD idsC [(ADDR_BOUND, 2 ^ 251)] =
      ((Addr.mk 0 1, if 2 ^ 250 < 2 ^ 251 then 1 else 0) :: memD,
        Except.ok ()) :=
  set_is_small_classifies memD idsC [(ADDR_BOUND, 2 ^ 251)]
    (2 ^ 251) (Addr.mk 0 0) (Addr.mk 0 1) (2 ^ 250)
    rfl rfl rfl (by decide) rfl rfl

/-- Counterexample to C5 as stated: with `ADDR_BOUND = 2^250 + 1` the guard
`PRIME < 2·ADDR_BOUND` fails (`PRIME = 2^251 + 17·2^192 + 1 ≥ 2^251 + 2`), so
for `addr = 2^250` the hint returns `AssertionFailed` and writes nothing to
`is_small`, instead of the claimed `is_small = 1`. -/
theorem set_is_small_example_fails_guard :
    normalize_address_set_is_small memD idsC [(ADDR_BOUND, 2 ^ 250 + 1)] =
      (memD, Except.error (HintError.assertionFailed (2 ^ 250 + 1))) ∧
    memGet (normalize_address_set_is_small memD idsC
      [(ADDR_BOUND, 2 ^ 250 + 1)]).1 (Addr.mk 0 1) = none := by
  exact ⟨rfl, rfl⟩

/-- C6: when the divisor limbs merge to zero, the divider performs its four
reads and then fails with the arithmetic fault of the division primitive,
writing nothing; the `alon` hint is the divider at offsets (0, 1). -/
theorem div_rem_zero_divisor_faults (mem : Mem) (ids : Ids) (dlo dhi : Nat)
    (a_addr div_addr : Addr) (a_low a_high div_low div_high : Nat)
    (ha : idsGet ids "a" = some a_addr)
    (hal : memGet mem a_addr = some a_low)
    (hah : memGet mem (a_addr.add 1) = some a_high)
    (hdiv : idsGet ids "div" = some div_addr)
    (hdl : memGet mem (div_addr.add dlo) = some div_low)
    (hdh : memGet mem (div_addr.add dhi) = some div_high)
    (hd0 : div_high * 2 ^ 128 + div_low = 0) :
    uint256_offseted_unsigned_div_rem mem ids dlo dhi =
      (mem, [Event.read a_addr, Event.read (a_addr.add 1),
        Event.read (div_addr.add dlo), Event.read (div_addr.add dhi)],
        Except.error HintError.arithmeticFault) ∧
    ∀ cs : Consts, alon mem ids cs = uint256_offseted_unsigned_div_rem mem ids 0 1 := by
  refine ⟨?_, fun _ => rfl⟩
  have hz : div_high <<< 128 + div_low = 0 := by
    rw [Nat.shiftLeft_eq]
    exact hd0
  unfold uint256_offseted_unsigned_div_rem
  simp only [getRelocatableFromVarName, getInteger, ha, hdiv, hal, hah, hdl,
    hdh, div_rem, hz, if_pos]

/-- Concrete memory with a zero divisor: `a = (5, 0)`, `div = (0, 0)`. -/
def memE : Mem :=
  [(Addr.mk 0 0, 5), (Addr.mk 0 1, 0), (Addr.mk 0 2, 0), (Addr.mk 0 3, 0)]

/-- Witness for C6: dividing 5 by the zero divisor faults. -/
theorem div_rem_zero_divisor_faults_witness :
    uint256_offseted_unsigned_div_rem memE idsA 0 1 =
      (memE, [Event.read (Addr.mk 0 0), Event.read ((Addr.mk 0 0).add 1),
        Event.read ((Addr.mk 0 2).add 0), Event.read ((Addr.mk 0 2).add 1)],
        Except.error HintError.arithmeticFault) ∧
    ∀ cs : Consts, alon memE idsA cs = uint256_offseted_unsigned_div_rem memE idsA 0 1 :=
  div_rem_zero_divisor_faults memE idsA 0 1 (Addr.mk 0 0) (Addr.mk 0 2)
    5 0 0 0 rfl rfl rfl rfl rfl rfl (by decide)

/-- C8: with no `starkware.starknet.common.storage.ADDR_BOUND` entry in the
constants table, the `is_small` hint aborts with `MissingConstant` before any
computation or write: memory is returned unchanged. -/
theorem set_is_small_missing_constant (mem : Mem) (ids : Ids)
    (constants : Consts)
    (h : constsGet constants ADDR_BOUND = none) :
    normalize_address_set_is_small mem ids constants =
      (mem, Except.error (HintError.missingConstant "ADDR_BOUND")) := by
  unfold normalize_address_set_is_small
  simp only [h]

/-- Witness for C8: the empty constants table. -/
theorem set_is_small_missing_constant_witness :
    normalize_address_set_is_small memC idsC [] =
      (memC, Except.error (HintError.missingConstant "ADDR_BOUND")) :=
  set_is_small_missing_constant memC idsC [] rfl

/-- Every event `Uint256.insert_from_var_name` records is a write. -/
theorem insert_from_var_name_trace_writes (u : Uint256) (name : String)
    (mem : Mem) (ids : Ids) :
    ∀ e ∈ (u.insert_from_var_name name mem ids).2.1, e.isWrite = true := by
  unfold Uint256.insert_from_var_name
  split
  · simp
  · split
    · simp
    · split
      · simp [Event.isWrite]
      · simp [Event.isWrite]

/-- C7: within one invocation of the divider, the event trace splits into the
operand reads followed by the result writes: no write precedes any read. -/
theorem div_rem_reads_precede_writes (mem : Mem) (ids : Ids) (dlo dhi : Nat) :
    ∃ rs ws,
      (uint256_offseted_unsigned_div_rem mem ids dlo dhi).2.1 = rs ++ ws ∧
      (∀ e ∈ rs, e.isRead = true) ∧ (∀ e ∈ ws, e.isWrite = true) := by
  unfold uint256_offseted_unsigned_div_rem
  dsimp only
  split
  · exact ⟨[], [], rfl, by simp, by simp⟩
  rename_i a_addr heqa
  split
  · exact ⟨[], [], rfl, by simp, by simp⟩
  rename_i a_low heqal
  split
  · exact ⟨[Event.read a_addr], [], rfl, by simp [Event.isRead], by simp⟩
  rename_i a_high heqah
  split
  · exact ⟨[Event.read a_addr, Event.read (a_addr.add 1)], [], rfl,
      by simp [Event.isRead], by simp⟩
  rename_i div_addr heqd
  split
  · exact ⟨[Event.read a_addr, Event.read (a_addr.add 1)], [], rfl,
      by simp [Event.isRead], by simp⟩
  rename_i div_low heqdl
  split
  · exact ⟨[Event.read a_addr, Event.read (a_addr.add 1),
      Event.read (div_addr.add dlo)], [], rfl, by simp [Event.isRead], by simp⟩
  rename_i div_high heqdh
  split
  · exact ⟨[Event.read a_addr, Event.read (a_addr.add 1),
      Event.read (div_addr.add dlo), Event.read (div_addr.add dhi)], [], rfl,
      by simp [Event.isRead], by simp⟩
  rename_i quotient remainder heqqr
  split
  · rename_i mem1 t1 e heq1
    have hw1 := insert_from_var_name_trace_writes
      (Uint256.split quotient) "quotient" mem ids
    rw [heq1] at hw1
    exact ⟨[Event.read a_addr, Event.read (a_addr.add 1),
      Event.read (div_addr.add dlo), Event.read (div_addr.add dhi)], t1,
      rfl, by simp [Event.isRead], hw1⟩
  rename_i mem1 t1 u1 heq1
  split
  · rename_i mem2 t2 e heq2
    have hw1 := insert_from_var_name_trace_writes
      (Uint256.split quotient) "quotient" mem ids
    rw [heq1] at hw1
    have hw2 := insert_from_var_name_trace_writes
      (Uint256.split remainder) "remainder" mem1 ids
    rw [heq2] at hw2
    refine ⟨[Event.read a_addr, Event.read (a_addr.add 1),
      Event.read (div_addr.add dlo), Event.read (div_addr.add dhi)], t1 ++ t2,
      by simp, by simp [Event.isRead], ?_⟩
    intro e he
    rcases List.mem_append.mp he with h | h
    · exact hw1 e h
    · exact hw2 e h
  · rename_i mem2 t2 u2 heq2
    have hw1 := insert_from_var_name_trace_writes
      (Uint256.split quotient) "quotient" mem ids
    rw [heq1] at hw1
    have hw2 := insert_from_var_name_trace_writes
      (Uint256.split remainder) "remainder" mem1 ids
    rw [heq2] at hw2
    refine ⟨[Event.read a_addr, Event.read (a_addr.add 1),
      Event.read (div_addr.add dlo), Event.read (div_addr.add dhi)], t1 ++ t2,
      by simp, by simp [Event.isRead], ?_⟩
    intro e he
    rcases List.mem_append.mp he with h | h
    · exact hw1 e h
    · exact hw2 e h

/-- C9: `Uint256::split` of any value below `2^256` produces two limbs below
`2^128`, and — since the quotient is at most the 256-bit dividend and the
remainder is below the 256-bit divisor — every quotient/remainder limb the
divider writes back fits in 128 bits. -/
theorem split_and_written_limbs_bounded
    (mem : Mem) (ids : Ids) (dlo dhi : Nat)
    (a_addr div_addr q_addr r_addr : Addr)
    (a_low a_high div_low div_high : Nat)
    (ha : idsGet ids "a" = some a_addr)
    (hdiv : idsGet ids "div" = some div_addr)
    (hq : idsGet ids "quotient" = some q_addr)
    (hr : idsGet ids "remainder" = some r_addr)
    (hal : memGet mem a_addr = some a_low)
    (hah : memGet mem (a_addr.add 1) = some a_high)
    (hdl : memGet mem (div_addr.add dlo) = some div_low)
    (hdh : memGet mem (div_addr.add dhi) = some div_high)
    (hbl : a_low < 2 ^ 128) (hbh : a_high < 2 ^ 128)
    (hdbl : div_low < 2 ^ 128) (hdbh : div_high < 2 ^ 128)
    (hd0 : ¬ (div_high * 2 ^ 128 + div_low = 0))
    (hql : memGet mem q_addr = none)
    (hqh : memGet mem (q_addr.add 1) = none)
    (hrl : memGet mem r_addr = none)
    (hrh : memGet mem (r_addr.add 1) = none)
    (hqr : ¬ (q_addr = r_addr))
    (hqr1 : ¬ (q_addr = r_addr.add 1))
    (hq1r : ¬ (q_addr.add 1 = r_addr))
    (hq1r1 : ¬ (q_addr.add 1 = r_addr.add 1)) :
    (∀ num : Nat, num < 2 ^ 256 →
      (Uint256.split num).low < 2 ^ 128 ∧ (Uint256.split num).high < 2 ^ 128) ∧
    ∃ mem' trace qlo qhi rlo rhi,
      uint256_offseted_unsigned_div_rem mem ids dlo dhi =
        (mem', trace, Except.ok ()) ∧
      memGet mem' q_addr = some qlo ∧
      memGet mem' (q_addr.add 1) = some qhi ∧
      memGet mem' r_addr = some rlo ∧
      memGet mem' (r_addr.add 1) = some rhi ∧
      qlo < 2 ^ 128 ∧ qhi < 2 ^ 128 ∧ rlo < 2 ^ 128 ∧ rhi < 2 ^ 128 := by
  have hD0 : 0 < div_high * 2 ^ 128 + div_low := Nat.pos_of_ne_zero hd0
  have h256A : a_high * 2 ^ 128 + a_low < 2 ^ 256 := merge_limbs_lt hbl hbh
  have h256D : div_high * 2 ^ 128 + div_low < 2 ^ 256 := merge_limbs_lt hdbl hdbh
  have hq256 :
      (a_high * 2 ^ 128 + a_low) / (div_high * 2 ^ 128 + div_low) < 2 ^ 256 :=
    lt_of_le_of_lt (Nat.div_le_self _ _) h256A
  have hr256 :
      (a_high * 2 ^ 128 + a_low) % (div_high * 2 ^ 128 + div_low) < 2 ^ 256 :=
    lt_trans (Nat.mod_lt _ hD0) h256D
  obtain ⟨_, hqlo, hqhi⟩ := Uint256.split_recompose hq256
  obtain ⟨_, hrlo, hrhi⟩ := Uint256.split_recompose hr256
  have hrun := uint256_div_rem_run mem ids dlo dhi a_addr div_addr q_addr r_addr
    a_low a_high div_low div_high ha hdiv hq hr hal hah hdl hdh
    (by rw [Nat.shiftLeft_eq]; exact hd0) hql hqh hrl hrh hqr hqr1 hq1r hq1r1
  simp only [Nat.shiftLeft_eq] at hrun
  refine ⟨fun num h => ⟨(Uint256.split_recompose h).2.1,
    (Uint256.split_recompose h).2.2⟩, _, _,
    (Uint256.split ((a_high * 2 ^ 128 + a_low) / (div_high * 2 ^ 128 + div_low))).low,
    (Uint256.split ((a_high * 2 ^ 128 + a_low) / (div_high * 2 ^ 128 + div_low))).high,
    (Uint256.split ((a_high * 2 ^ 128 + a_low) % (div_high * 2 ^ 128 + div_low))).low,
    (Uint256.split ((a_high * 2 ^ 128 + a_low) % (div_high * 2 ^ 128 + div_low))).high,
    hrun, ?_, ?_, ?_, ?_, hqlo, hqhi, hrlo, hrhi⟩
  · rw [memGet_cons_ne (Ne.symm hqr1), memGet_cons_ne (Ne.symm hqr),
      memGet_cons_ne (Addr.add_one_ne q_addr), memGet_cons_self]
  · rw [memGet_cons_ne (Ne.symm hq1r1), memGet_cons_ne (Ne.symm hq1r),
      memGet_cons_self]
  · rw [memGet_cons_ne (Addr.add_one_ne r_addr), memGet_cons_self]
  · rw [memGet_cons_self]

/-- Witness for C9 with `a = 5`, `div = 2`. -/
theorem split_and_written_limbs_bounded_witness :
    (∀ num : Nat, num < 2 ^ 256 →
      (Uint256.split num).low < 2 ^ 128 ∧ (Uint256.split num).high < 2 ^ 128) ∧
    ∃ mem' trace qlo qhi rlo rhi,
      uint256_offseted_unsigned_div_rem memA idsA 0 1 =
        (mem', trace, Except.ok ()) ∧
      memGet mem' (Addr.mk 0 4) = some qlo ∧
      memGet mem' ((Addr.mk 0 4).add 1) = some qhi ∧
      memGet mem' (Addr.mk 0 6) = some rlo ∧
      memGet mem' ((Addr.mk 0 6).add 1) = some rhi ∧
      qlo < 2 ^ 128 ∧ qhi < 2 ^ 128 ∧ rlo < 2 ^ 128 ∧ rhi < 2 ^ 128 :=
  split_and_written_limbs_bounded memA idsA 0 1
    (Addr.mk 0 0) (Addr.mk 0 2) (Addr.mk 0 4) (Addr.mk 0 6) 5 0 2 0
    rfl rfl rfl rfl rfl rfl rfl rfl
    (by decide) (by decide) (by decide) (by decide) (by decide)
    rfl rfl rfl rfl (by decide) (by decide) (by decide) (by decide)

/-- Divider memory whose `remainder.low` cell (offset 6) is pre-occupied with
the value 0, conflicting with the remainder 1 of `5 divmod 2`. -/
def memF : Mem :=
  [(Addr.mk 0 0, 5), (Addr.mk 0 1, 0), (Addr.mk 0 2, 2), (Addr.mk 0 3, 0),
   (Addr.mk 0 6, 0)]

/-- C10: on a successful run the divider's writes occur in the fixed order
`quotient.low`, `quotient.high`, `remainder.low`, `remainder.high`; and a
failing write aborts the hint without rolling back the writes that already
succeeded: with the `remainder.low` cell pre-occupied by a conflicting value,
the run stops with `MemoryInconsistent` and the final memory holds exactly the
two quotient limbs on top of the initial memory. -/
theorem div_rem_write_order_and_no_rollback
    (mem : Mem) (ids : Ids) (dlo dhi : Nat)
    (a_addr div_addr q_addr r_addr : Addr)
    (a_low a_high div_low div_high : Nat)
    (ha : idsGet ids "a" = some a_addr)
    (hdiv : idsGet ids "div" = some div_addr)
    (hq : idsGet ids "quotient" = some q_addr)
    (hr : idsGet ids "remainder" = some r_addr)
    (hal : memGet mem a_addr = some a_low)
    (hah : memGet mem (a_addr.add 1) = some a_high)
    (hdl : memGet mem (div_addr.add dlo) = some div_low)
    (hdh : memGet mem (div_addr.add dhi) = some div_high)
    (hd0 : ¬ (div_high * 2 ^ 128 + div_low = 0))
    (hql : memGet mem q_addr = none)
    (hqh : memGet mem (q_addr.add 1) = none)
    (hrl : memGet mem r_addr = none)
    (hrh : memGet mem (r_addr.add 1) = none)
    (hqr : ¬ (q_addr = r_addr))
    (hqr1 : ¬ (q_addr = r_addr.add 1))
    (hq1r : ¬ (q_addr.add 1 = r_addr))
    (hq1r1 : ¬ (q_addr.add 1 = r_addr.add 1)) :
    List.filter Event.isWrite
        (uint256_offseted_unsigned_div_rem mem ids dlo dhi).2.1 =
      [Event.write q_addr, Event.write (q_addr.add 1),
       Event.write r_addr, Event.write (r_addr.add 1)] ∧
    uint256_offseted_unsigned_div_rem memF idsA 0 1 =
      ((Addr.mk 0 5, 0) :: (Addr.mk 0 4, 2) :: memF,
       [Event.read (Addr.mk 0 0), Event.read ((Addr.mk 0 0).add 1),
        Event.read ((Addr.mk 0 2).add 0), Event.read ((Addr.mk 0 2).add 1),
        Event.write (Addr.mk 0 4), Event.write ((Addr.mk 0 4).add 1)],
       Except.error (HintError.memoryInconsistent (Addr.mk 0 6))) := by
  constructor
  · have hrun := uint256_div_rem_run mem ids dlo dhi a_addr div_addr q_addr
      r_addr a_low a_high div_low div_high ha hdiv hq hr hal hah hdl hdh
      (by rw [Nat.shiftLeft_eq]; exact hd0) hql hqh hrl hrh hqr hqr1 hq1r hq1r1
    rw [hrun]
    simp [Event.isWrite]
  · rfl

/-- Witness for C10 with `a = 5`, `div = 2` written to fresh cells. -/
theorem div_rem_write_order_and_no_rollback_witness :
    List.filter Event.isWrite
        (uint256_offseted_unsigned_div_rem memA idsA 0 1).2.1 =
      [Event.write (Addr.mk 0 4), Event.write ((Addr.mk 0 4).add 1),
       Event.write (Addr.mk 0 6), Event.write ((Addr.mk 0 6).add 1)] ∧
    uint256_offseted_unsigned_div_rem memF idsA 0 1 =
      ((Addr.mk 0 5, 0) :: (Addr.mk 0 4, 2) :: memF,
       [Event.read (Addr.mk 0 0), Event.read ((Addr.mk 0 0).add 1),
        Event.read ((Addr.mk 0 2).add 0), Event.read ((Addr.mk 0 2).add 1),
        Event.write (Addr.mk 0 4), Event.write ((Addr.mk 0 4).add 1)],
       Except.error (HintError.memoryInconsistent (Addr.mk 0 6))) :=
  div_rem_write_order_and_no_rollback memA idsA 0 1
    (Addr.mk 0 0) (Addr.mk 0 2) (Addr.mk 0 4) (Addr.mk 0 6) 5 0 2 0
    rfl rfl rfl rfl rfl rfl rfl rfl (by decide)
    rfl rfl rfl rfl (by decide) (by decide) (by decide) (by decide)

end BlockifierHints
